import Mathlib

/-!
Shallow embedding of the task-engine core (`src/lib/index.js`).

The engine is a registry mapping task names to `{ run, dependencies }`
entries, plus:
  * `addTask` (registration with overloaded argument shapes),
  * `runTask` (recursive sequential dependency resolution + execution),
  * `runTaskWithoutDependencies` (direct invocation, no dependencies).

Modelling conventions:
  * JavaScript values that matter to the claims are `Value` (numbers,
    strings, booleans, arrays, `null`, `undefined`).
  * A JS object used as an options mapping is `Obj`, an insertion-ordered
    association list; `Object.assign` is `assign` (later sources win,
    updates keep the original key position, exactly like JS property
    writes), and property reads are `getKey` (last write wins).
  * Promises: the engine is single-threaded and strictly sequential, so a
    settled promise is `Except JSError Value`; a whole call is
    `Option (RunResult × Trace)` where `none` means the recursion did not
    terminate within the supplied fuel (the source has no cycle detection,
    so unbounded recursion is possible).
  * Runnables are functions `Obj → List Value → Except JSError Value`;
    `Except.error` covers both a synchronous `throw` and an asynchronous
    rejection (both collapse onto the same rejection channel in the
    source).  The engine-handle argument (`this`, passed as the second
    runnable argument in the source) is invariantly the registry itself
    and is not consumed by any claim, so it is not threaded through the
    runnable type.
  * Every runnable invocation is logged in a `Trace` as
    `(taskName, options, results)`, in invocation order, so ordering,
    counting and argument claims are statements about the trace.
-/

inductive Value where
  | num : Int → Value
  | str : String → Value
  | bool : Bool → Value
  | arr : List Value → Value
  | null : Value
  | undef : Value

/-- JS errors: `error m` is `new Error(m)` (the engine's deliberate
throws); `typeError m` is a runtime `TypeError` (e.g. reading a property
of `null`/`undefined`, or calling a non-function). -/
inductive JSError where
  | error : String → JSError
  | typeError : String → JSError
deriving DecidableEq

/-- A JS object as an insertion-ordered association list of properties. -/
abbrev Obj := List (String × Value)

/-- JS property write `o[k] = v`: replaces in place if the key exists,
otherwise appends (JS property-order semantics). -/
def setKey : Obj → String → Value → Obj
  | [], k, v => [(k, v)]
  | (k', v') :: o, k, v =>
    if k' = k then (k, v) :: o else (k', v') :: setKey o k v

/-- `a` if present, else `b` (used to express "later/override wins"). -/
def optOr (a b : Option Value) : Option Value :=
  match a with
  | some v => some v
  | none => b

/-- JS property read `o[k]`: replaying the entries in order, the last
write to `k` wins (on a well-formed object, keys are unique and this is
plain association-list lookup). -/
def getKey : Obj → String → Option Value
  | [], _ => none
  | p :: o, k => optOr (getKey o k) (if p.1 = k then some p.2 else none)

/-- The property names of an object, in property order. -/
def objKeys (o : Obj) : List String := o.map Prod.fst

/-- A well-formed JS object: no duplicated property names (every object
the engine builds has this shape). -/
def WFObj (o : Obj) : Prop := (objKeys o).Nodup

/-- `Object.assign(target, source)`: copies `source`'s properties onto
`target` in order. -/
def assign (target source : Obj) : Obj :=
  source.foldl (fun acc p => setKey acc p.1 p.2) target

/-- `Object.assign({}, options, override)` as performed at
`src/lib/index.js:162` — a brand new mapping; `override` keys win. -/
def jsMerge (options override : Obj) : Obj :=
  assign (assign [] options) override

/-- `results.concat(result)` (`src/lib/index.js:165`).  JavaScript
`Array.prototype.concat` splices an array argument one level: an
array-valued `result` contributes its elements, any other value is
appended as a single element. -/
def concatJS (acc : List Value) (v : Value) : List Value :=
  match v with
  | Value.arr xs => acc ++ xs
  | v => acc ++ [v]

/-- Is a value a JS array (i.e. spread by `concat`)? -/
def isArr : Value → Bool
  | Value.arr _ => true
  | _ => false

/-- A declared dependency: either a bare task-name string, or a
`{ task, options? }` spec object (`d.options || {}` when absent). -/
inductive Dep where
  | name : String → Dep
  | spec : String → Obj → Dep

/-- `d.task` after the `typeof d === 'string'` normalization
(`src/lib/index.js:156-158`). -/
def depTask : Dep → String
  | Dep.name n => n
  | Dep.spec n _ => n

/-- `d.options || {}` (`src/lib/index.js:162`). -/
def depOpts : Dep → Obj
  | Dep.name _ => []
  | Dep.spec _ o => o

/-- A registry entry `{ run: task, dependencies }`
(`src/lib/index.js:39`). -/
structure TaskDef where
  run : Obj → List Value → Except JSError Value
  dependencies : List Dep

/-- `this.tasks`: a null-prototype object mapping task names to entries;
modelled as an insertion-ordered association list with unique keys. -/
abbrev Registry := List (String × TaskDef)

/-- `taskName in this.tasks` / `this.tasks[taskName]` lookup. -/
def lookupTask : Registry → String → Option TaskDef
  | [], _ => none
  | (k, t) :: r, n => if k = n then some t else lookupTask r n

/-- `this.tasks[taskName] = entry`: overwrite in place or append. -/
def setTask : Registry → String → TaskDef → Registry
  | [], n, t => [(n, t)]
  | (k, u) :: r, n, t => if k = n then (n, t) :: r else (k, u) :: setTask r n t

/-- `canRunTask(taskName)` (`src/lib/index.js:140-142`). -/
def canRunTask (reg : Registry) (n : String) : Bool :=
  (lookupTask reg n).isSome

/-- One logged runnable invocation: task name, the options argument, and
the results argument it received. -/
abbrev TraceEntry := String × Obj × List Value

abbrev Trace := List TraceEntry

/-- The settled outcome of a returned promise. -/
abbrev RunResult := Except JSError Value

/-- The dependency `reduce` chain of `runTask` (`src/lib/index.js:155-172`),
parameterized by the recursive resolver `rt`.  `acc` is the accumulated
results array carried by the promise chain (initially
`Promise.resolve([])`).  Sequentiality is structural: the tail is only
processed on the head's fully settled successful result; a failure of the
head (or a missing head) settles the whole chain, so later `.then`
callbacks never run. -/
def runDepsWith (rt : String → Obj → Option (RunResult × Trace))
    (reg : Registry) (options : Obj) :
    List Dep → List Value → Option (Except JSError (List Value) × Trace)
  | [], acc => some (Except.ok acc, [])
  | d :: ds, acc =>
    if canRunTask reg (depTask d) then
      match rt (depTask d) (jsMerge options (depOpts d)) with
      | none => none
      | some (Except.error e, tr) => some (Except.error e, tr)
      | some (Except.ok v, tr) =>
        match runDepsWith rt reg options ds (concatJS acc v) with
        | none => none
        | some (res, tr') => some (res, tr ++ tr')
    else
      some (Except.error (JSError.error ("Dependent task " ++ depTask d ++ " not found")), [])

/-- `runTask(taskName, options)` (`src/lib/index.js:152-178`), with fuel
bounding the recursion depth (`none` = did not settle within the fuel;
the source would recurse further, or forever on a cyclic graph).  On
success of every dependency the task's own runnable is invoked with
`(options, this, results.slice())`; `results.slice()` is a fresh copy,
i.e. the same list here.  The invocation is logged whether the runnable
succeeds or fails, and its `Except` outcome is the settled promise. -/
def runTaskFuel (reg : Registry) : Nat → String → Obj → Option (RunResult × Trace)
  | 0, _, _ => none
  | fuel + 1, taskName, options =>
    match lookupTask reg taskName with
    | some task =>
      match runDepsWith (runTaskFuel reg fuel) reg options task.dependencies [] with
      | none => none
      | some (Except.error e, tr) => some (Except.error e, tr)
      | some (Except.ok results, tr) =>
        some (task.run options results, tr ++ [(taskName, options, results)])
    | none =>
      some (Except.error (JSError.error ("Task " ++ taskName ++ " does not exist")), [])

/-- The outcome of calling `runTaskWithoutDependencies`: either it returns
a promise that settles, or the method itself throws synchronously before
returning a promise. -/
inductive DirectOutcome where
  | promise : RunResult → DirectOutcome
  | thrown : JSError → DirectOutcome

/-- The `TypeError` raised when the source evaluates `this.reject(...)`
(`src/lib/index.js:193,196`): `TaskEngine` declares no `reject` method, so
the property is `undefined` and the call throws. -/
def thisRejectTypeError : JSError :=
  JSError.typeError "this.reject is not a function"

/-- `runTaskWithoutDependencies(taskName, options)`
(`src/lib/index.js:187-198`).  If the task exists, its runnable is invoked
with `(options, this, [])` inside a promise executor, so a synchronous
throw and an asynchronous failure both reject the promise; the `.catch`
handler then evaluates `this.reject(error)`, which throws a `TypeError`
(no such method), so the returned promise rejects with that `TypeError`
instead of the original error.  If the task does not exist, the method
evaluates `this.reject(new Error(...))` directly and therefore throws the
`TypeError` synchronously instead of returning a rejected promise. -/
def runTaskWithoutDependencies (reg : Registry) (taskName : String) (options : Obj) :
    DirectOutcome × Trace :=
  match lookupTask reg taskName with
  | some task =>
    match task.run options [] with
    | Except.ok v => (DirectOutcome.promise (Except.ok v), [(taskName, options, [])])
    | Except.error _ =>
      (DirectOutcome.promise (Except.error thisRejectTypeError), [(taskName, options, [])])
  | none => (DirectOutcome.thrown thisRejectTypeError, [])

/-- A JS function value: its intrinsic `name` plus its behavior. -/
structure JSFunc where
  name : String
  run : Obj → List Value → Except JSError Value

/-- The first argument of `addTask`: a function, or any non-callable
value (including `null`/`undefined` for absent arguments). -/
inductive JSArg where
  | func : JSFunc → JSArg
  | nonFunc : Value → JSArg

/-- Reading `task.name`: fine on a function (its intrinsic name, possibly
`""` for an anonymous function) and on any non-nullish value (yielding
`undefined`, i.e. `none`); a `TypeError` on `null`/`undefined`. -/
def argName : JSArg → Except JSError (Option String)
  | JSArg.func f => Except.ok (some f.name)
  | JSArg.nonFunc Value.null =>
    Except.error (JSError.typeError "Cannot read properties of null (reading name)")
  | JSArg.nonFunc Value.undef =>
    Except.error (JSError.typeError "Cannot read properties of undefined (reading name)")
  | JSArg.nonFunc _ => Except.ok none

/-- The second argument of `addTask`: a string name, an array in the name
slot (the `addTask(task, dependencies)` overload), or absent. -/
inductive NameArg where
  | str : String → NameArg
  | arr : List Dep → NameArg
  | undef : NameArg

/-- JS truthiness of the normalized `taskName` (a string or `undefined`):
truthy iff a non-empty string. -/
def truthyName : Option String → Bool
  | some s => !s.isEmpty
  | none => false

/-- The error thrown at `src/lib/index.js:42-45` (runnable has no
derivable name and none was supplied). -/
def cfgErrNoName : JSError :=
  JSError.error
    "Task function must be a named function or an explicit task name must be passed in"

/-- The error thrown at `src/lib/index.js:48` (first argument is not a
function). -/
def cfgErrNotFunc : JSError := JSError.error "Task must be a function"

/-- `addTask(task, taskName, dependencies = [])` (`src/lib/index.js:27-50`).
Normalization order matters: `Array.isArray(taskName)` first moves an
array name-argument into `dependencies` and reads `task.name` (which
throws a `TypeError` when `task` is nullish); then a falsy name is
replaced by `task.name` (same possible `TypeError`); only then is
`typeof task === 'function'` checked. -/
def addTask (reg : Registry) (task : JSArg) (nameArg : NameArg) (deps : List Dep) :
    Except JSError Registry :=
  let step1 : Except JSError (Option String × List Dep) :=
    match nameArg with
    | NameArg.arr ds => (argName task).map (fun n => (n, ds))
    | NameArg.str s => Except.ok (some s, deps)
    | NameArg.undef => Except.ok (none, deps)
  match step1 with
  | Except.error e => Except.error e
  | Except.ok (n, ds) =>
    let step2 : Except JSError (Option String) :=
      if truthyName n then Except.ok n else argName task
    match step2 with
    | Except.error e => Except.error e
    | Except.ok nm =>
      match task with
      | JSArg.func f =>
        match nm with
        | some s =>
          if s.isEmpty then Except.error cfgErrNoName
          else Except.ok (setTask reg s (TaskDef.mk f.run ds))
        | none => Except.error cfgErrNoName
      | JSArg.nonFunc _ => Except.error cfgErrNotFunc

/-- How many times a task of the given name was invoked in a trace. -/
def countTask (n : String) (tr : Trace) : Nat :=
  (tr.filter (fun en => en.1 == n)).length

/-- Does `hay` contain `needle` as a contiguous substring?  Used to state
what a thrown error's message does (not) carry. -/
def strContainsSub (hay needle : String) : Bool :=
  (List.range (hay.length + 1)).any
    (fun i => needle.toList.isPrefixOf (hay.toList.drop i))

/-- A trivial runnable (used to instantiate generic theorems). -/
def noopRun : Obj → List Value → Except JSError Value :=
  fun _ _ => Except.ok Value.undef

/-- A one-task registry whose runnable fails with `e` (covering both a
synchronous `throw e` and a runnable returning a promise rejected with
`e`; the source collapses both onto the rejection channel). -/
def boomReg (e : JSError) : Registry :=
  [("boom", TaskDef.mk (fun _ _ => Except.error e) [])]

/-- Registry where `A`'s single dependency `B` resolves to an array
value; `A`'s runnable reports how many results it received. -/
def arrSpliceReg : Registry :=
  [("A", TaskDef.mk (fun _ rs => Except.ok (Value.num (Int.ofNat rs.length))) [Dep.name "B"]),
   ("B", TaskDef.mk (fun _ _ => Except.ok (Value.arr [Value.num 1, Value.num 2])) [])]

/-- Registry where `A` depends on `[B, C]`, `B` resolves to an array and
`C` to a plain string; `A`'s runnable returns the results it received. -/
def seqSpliceReg : Registry :=
  [("A", TaskDef.mk (fun _ rs => Except.ok (Value.arr rs)) [Dep.name "B", Dep.name "C"]),
   ("B", TaskDef.mk (fun _ _ => Except.ok (Value.arr [Value.str "x", Value.str "y"])) []),
   ("C", TaskDef.mk (fun _ _ => Except.ok (Value.str "z")) [])]

/-- A task named `parent` declaring a dependency on the unregistered
name `ghost`. -/
def missingDepReg : Registry :=
  [("parent", TaskDef.mk noopRun [Dep.name "ghost"])]

/-- Diamond shape: `A` depends on `[B, C]`, and `B` and `C` each depend
on `D` with their own option overrides. -/
def diamondReg : Registry :=
  [("A", TaskDef.mk (fun _ _ => Except.ok (Value.num 0)) [Dep.name "B", Dep.name "C"]),
   ("B", TaskDef.mk (fun _ _ => Except.ok (Value.num 1)) [Dep.spec "D" [("b", Value.num 1)]]),
   ("C", TaskDef.mk (fun _ _ => Except.ok (Value.num 2)) [Dep.spec "D" [("c", Value.num 2)]]),
   ("D", TaskDef.mk (fun _ _ => Except.ok (Value.num 4)) [])]

/-- A parent task `P` whose dependency list has a resolvable first
dependency `E` and then a dependency on the unregistered name `D`. -/
def prefixMissingReg : Registry :=
  [("P", TaskDef.mk noopRun [Dep.name "E", Dep.name "D"]),
   ("E", TaskDef.mk (fun _ _ => Except.ok (Value.num 5)) [])]

/-! ### Helper lemmas about JS value/object operations -/

theorem concatJS_nonarr (acc : List Value) (v : Value) (h : isArr v = false) :
    concatJS acc v = acc ++ [v] := by
  cases v
  case arr xs => simp [isArr] at h
  all_goals rfl

theorem foldl_concatJS_nonarr :
    ∀ (vs acc : List Value), (∀ v ∈ vs, isArr v = false) →
      vs.foldl concatJS acc = acc ++ vs
  | [], acc, _ => by simp
  | v :: vs, acc, h => by
    have hv : isArr v = false := h v (List.mem_cons_self v vs)
    have hrest : ∀ w ∈ vs, isArr w = false := fun w hw => h w (List.mem_cons_of_mem v hw)
    show List.foldl concatJS (concatJS acc v) vs = acc ++ v :: vs
    rw [foldl_concatJS_nonarr vs (concatJS acc v) hrest, concatJS_nonarr acc v hv]
    simp

theorem optOr_none (a : Option Value) : optOr a none = a := by
  cases a <;> rfl

theorem getKey_nil (k : String) : getKey [] k = none := rfl

theorem objKeys_cons (p : String × Value) (o : Obj) :
    objKeys (p :: o) = p.1 :: objKeys o := rfl

theorem getKey_not_mem : ∀ (o : Obj) (k : String), k ∉ objKeys o → getKey o k = none
  | [], _, _ => rfl
  | p :: o, k, h => by
    rw [objKeys_cons, List.mem_cons] at h
    push_neg at h
    show optOr (getKey o k) (if p.1 = k then some p.2 else none) = none
    rw [getKey_not_mem o k h.2, if_neg (fun he => h.1 he.symm)]
    rfl

theorem getKey_setKey : ∀ (o : Obj) (k k' : String) (v : Value), WFObj o →
    getKey (setKey o k v) k' = if k = k' then some v else getKey o k'
  | [], k, k', v, _ => by
    by_cases h : k = k' <;> simp [setKey, getKey, optOr, h]
  | (a, b) :: o, k, k', v, hwf => by
    have hwf2 : WFObj o := (List.nodup_cons.mp hwf).2
    have hnotin : a ∉ objKeys o := (List.nodup_cons.mp hwf).1
    have hnone : getKey o a = none := getKey_not_mem o a hnotin
    by_cases hak : a = k
    · subst hak
      by_cases hk : a = k'
      · subst hk
        simp [setKey, getKey, optOr, hnone]
      · simp [setKey, getKey, optOr, hk]
    · have ih := getKey_setKey o k k' v hwf2
      have hset : setKey ((a, b) :: o) k v = (a, b) :: setKey o k v := by
        simp [setKey, hak]
      rw [hset]
      show optOr (getKey (setKey o k v) k') (if a = k' then some b else none)
          = if k = k' then some v else getKey ((a, b) :: o) k'
      rw [ih]
      by_cases hk : k = k'
      · simp [hk, optOr]
      · simp only [hk, if_false]
        rfl

theorem objKeys_setKey : ∀ (o : Obj) (k : String) (v : Value),
    objKeys (setKey o k v) = if k ∈ objKeys o then objKeys o else objKeys o ++ [k]
  | [], k, v => by simp [setKey, objKeys]
  | (a, b) :: o, k, v => by
    by_cases hak : a = k
    · subst hak
      simp [setKey, objKeys_cons, List.mem_cons]
    · have hset : setKey ((a, b) :: o) k v = (a, b) :: setKey o k v := by
        simp [setKey, hak]
      have hka : ¬(k = a) := fun h => hak h.symm
      rw [hset, objKeys_cons, objKeys_cons, objKeys_setKey o k v]
      by_cases hmem : k ∈ objKeys o
      · simp [hmem, List.mem_cons]
      · simp [hmem, List.mem_cons, hka]

theorem WFObj_setKey (o : Obj) (k : String) (v : Value) (h : WFObj o) :
    WFObj (setKey o k v) := by
  rw [WFObj, objKeys_setKey]
  by_cases hmem : k ∈ objKeys o
  · simpa [hmem] using h
  · simp only [hmem, if_false]
    rw [List.nodup_append]
    exact ⟨h, List.nodup_singleton k, by
      intro a ha hk
      rw [List.mem_singleton] at hk
      exact hmem (hk ▸ ha)⟩

theorem WFObj_assign : ∀ (s t : Obj), WFObj t → WFObj (assign t s)
  | [], _, h => h
  | p :: s, t, h => WFObj_assign s (setKey t p.1 p.2) (WFObj_setKey t p.1 p.2 h)

theorem getKey_assign : ∀ (s t : Obj) (k : String), WFObj t →
    getKey (assign t s) k = optOr (getKey s k) (getKey t k)
  | [], t, k, _ => by simp [assign, getKey, optOr]
  | p :: s, t, k, h => by
    have ih := getKey_assign s (setKey t p.1 p.2) k (WFObj_setKey t p.1 p.2 h)
    show getKey (assign (setKey t p.1 p.2) s) k = _
    rw [ih, getKey_setKey t p.1 k p.2 h]
    show _ = optOr (optOr (getKey s k) (if p.1 = k then some p.2 else none)) (getKey t k)
    cases getKey s k <;> by_cases hpk : p.1 = k <;> simp [optOr, hpk]

theorem getKey_jsMerge (o ov : Obj) (k : String) :
    getKey (jsMerge o ov) k = optOr (getKey ov k) (getKey o k) := by
  have h0 : WFObj ([] : Obj) := List.nodup_nil
  have h1 : WFObj (assign [] o) := WFObj_assign o [] h0
  show getKey (assign (assign [] o) ov) k = _
  rw [getKey_assign ov (assign [] o) k h1, getKey_assign o [] k h0, getKey_nil, optOr_none]

theorem getKey_jsMerge_empty (o : Obj) (k : String) :
    getKey (jsMerge o []) k = getKey o k := by
  rw [getKey_jsMerge, getKey_nil]
  rfl

/-! ### Structural lemmas about the dependency chain -/

/-- If the dependency chain settles successfully, it produced one resolved
value per declared dependency, in declaration order, each value being the
outcome of resolving that dependency under its own merged options; the
final results array is the declaration-order `concat` fold of those
values over the incoming accumulator. -/
theorem runDepsWith_ok_results
    (rt : String → Obj → Option (RunResult × Trace)) (reg : Registry) (o : Obj) :
    ∀ (deps : List Dep) (acc rs : List Value) (tr : Trace),
      runDepsWith rt reg o deps acc = some (Except.ok rs, tr) →
      ∃ vs : List Value, vs.length = deps.length ∧
        rs = vs.foldl concatJS acc ∧
        ∀ i, i < deps.length → ∃ d v tri,
          deps.get? i = some d ∧ vs.get? i = some v ∧
          rt (depTask d) (jsMerge o (depOpts d)) = some (Except.ok v, tri) := by
  intro deps
  induction deps with
  | nil =>
    intro acc rs tr h
    simp [runDepsWith] at h
    refine ⟨[], rfl, by simp [h.1], ?_⟩
    intro i hi
    exact absurd hi (by simp)
  | cons d ds ih =>
    intro acc rs tr h
    cases hcan : canRunTask reg (depTask d) with
    | false =>
      simp [runDepsWith, hcan] at h
    | true =>
      simp only [runDepsWith, hcan, if_true] at h
      rcases hrt : rt (depTask d) (jsMerge o (depOpts d)) with _ | ⟨res1, tr1⟩
      · rw [hrt] at h
        simp at h
      · rw [hrt] at h
        rcases res1 with e | v
        · simp at h
        · replace h : (match runDepsWith rt reg o ds (concatJS acc v) with
              | none => none
              | some (res, tr') => some (res, tr1 ++ tr')) = some (Except.ok rs, tr) := h
          rcases hds : runDepsWith rt reg o ds (concatJS acc v) with _ | ⟨res2, tr2⟩
          · rw [hds] at h
            simp at h
          · rw [hds] at h
            simp at h
            obtain ⟨hres2, htr⟩ := h
            rw [hres2] at hds
            obtain ⟨vs, hlen, hrs, hidx⟩ := ih (concatJS acc v) rs tr2 hds
            refine ⟨v :: vs, by simp [hlen], hrs, ?_⟩
            intro i hi
            cases i with
            | zero => exact ⟨d, v, tr1, rfl, rfl, hrt⟩
            | succ n =>
              have hn : n < ds.length := by
                simp at hi
                omega
              obtain ⟨d', v', tri, hd', hv', hrt'⟩ := hidx n hn
              exact ⟨d', v', tri, hd', hv', hrt'⟩

/-- Splitting the dependency chain: once a prefix has settled
successfully, the chain for the whole list continues with the suffix,
starting from the prefix's accumulated results, prepending the prefix's
trace. -/
theorem runDepsWith_append
    (rt : String → Obj → Option (RunResult × Trace)) (reg : Registry) (o : Obj) :
    ∀ (ds₁ ds₂ : List Dep) (acc rs₁ : List Value) (tr₁ : Trace),
      runDepsWith rt reg o ds₁ acc = some (Except.ok rs₁, tr₁) →
      runDepsWith rt reg o (ds₁ ++ ds₂) acc
        = match runDepsWith rt reg o ds₂ rs₁ with
          | none => none
          | some (res, tr₂) => some (res, tr₁ ++ tr₂) := by
  intro ds₁
  induction ds₁ with
  | nil =>
    intro ds₂ acc rs₁ tr₁ h
    simp [runDepsWith] at h
    obtain ⟨h1, h2⟩ := h
    subst h2
    subst h1
    rw [List.nil_append]
    cases hds : runDepsWith rt reg o ds₂ acc with
    | none => rfl
    | some p =>
      rcases p with ⟨res, tr₂⟩
      simp
  | cons d ds ih =>
    intro ds₂ acc rs₁ tr₁ h
    cases hcan : canRunTask reg (depTask d) with
    | false =>
      simp [runDepsWith, hcan] at h
    | true =>
      simp only [runDepsWith, hcan, if_true] at h
      rcases hrt : rt (depTask d) (jsMerge o (depOpts d)) with _ | ⟨res1, tr1⟩
      · rw [hrt] at h
        simp at h
      · rw [hrt] at h
        rcases res1 with e | v
        · simp at h
        · replace h : (match runDepsWith rt reg o ds (concatJS acc v) with
              | none => none
              | some (res, tr') => some (res, tr1 ++ tr')) = some (Except.ok rs₁, tr₁) := h
          rcases hds : runDepsWith rt reg o ds (concatJS acc v) with _ | ⟨res2, tr2⟩
          · rw [hds] at h
            simp at h
          · rw [hds] at h
            simp at h
            obtain ⟨hres2, htr⟩ := h
            rw [hres2] at hds
            have hrec := ih ds₂ (concatJS acc v) rs₁ tr2 hds
            have hgoal : runDepsWith rt reg o (d :: (ds ++ ds₂)) acc
                = (match runDepsWith rt reg o (ds ++ ds₂) (concatJS acc v) with
                   | none => none
                   | some (res, tr') => some (res, tr1 ++ tr')) := by
              simp only [runDepsWith, hcan, if_true, hrt]
            rw [List.cons_append, hgoal, hrec]
            cases runDepsWith rt reg o ds₂ rs₁ with
            | none => rfl
            | some p =>
              rcases p with ⟨res3, tr3⟩
              simp [htr.symm, List.append_assoc]

/-! ### Claim theorems -/

/-- **C2** (code bug).  For a registered task whose runnable fails with
error `e` (synchronous throw and asynchronous rejection are the same
`Except.error` here), `runTaskWithoutDependencies` does NOT deliver `e`:
its `.catch` handler evaluates the nonexistent method `this.reject`, so
the returned promise rejects with a `TypeError` instead.  By contrast
`runTask` on the same task propagates `e` unmodified — the claimed
behaviour.  The conjunction evaluates the code at the failing input and
exhibits the divergence. -/
theorem runDirect_failure_replaced_by_typeError (e : JSError) :
    runTaskWithoutDependencies (boomReg e) "boom" []
      = (DirectOutcome.promise (Except.error thisRejectTypeError), [("boom", [], [])]) ∧
    runTaskFuel (boomReg e) 1 "boom" []
      = some (Except.error e, [("boom", [], [])]) := ⟨rfl, rfl⟩

/-- **C5** (confirmed).  With `A` depending on `[B, C]` in that order and
`B`'s runnable failing with `e` (for every error `e`, every inherited
options object `o`, every runnable of `C` and of `A`, and any sufficient
fuel): the whole resolution fails with exactly `e` (no wrapping), and the
trace shows `B` was the only runnable ever invoked — `C`'s resolution is
never started and `A`'s runnable never runs, so no partial results ever
reach the caller. -/
theorem dependency_failure_short_circuits (fuel : Nat) (o : Obj) (e : JSError)
    (fA gC : Obj → List Value → Except JSError Value) :
    runTaskFuel
      [("A", TaskDef.mk fA [Dep.name "B", Dep.name "C"]),
       ("B", TaskDef.mk (fun _ _ => Except.error e) []),
       ("C", TaskDef.mk gC [])]
      (fuel + 2) "A" o
    = some (Except.error e, [("B", jsMerge o [], [])]) := rfl

/-- **C7** (code bug).  For an unregistered name, `runTask` does fail
asynchronously with the task-not-found error and no runnable is invoked
(empty trace) — but `runTaskWithoutDependencies` evaluates
`this.reject(new Error(...))` on a class with no `reject` method, so it
throws a synchronous `TypeError` instead of failing asynchronously with
`TaskNotFoundError(name)`. -/
theorem unregistered_name_behaviour (reg : Registry) (n : String) (o : Obj) (fuel : Nat)
    (h : lookupTask reg n = none) :
    runTaskFuel reg (fuel + 1) n o
      = some (Except.error (JSError.error ("Task " ++ n ++ " does not exist")), []) ∧
    runTaskWithoutDependencies reg n o = (DirectOutcome.thrown thisRejectTypeError, []) := by
  constructor
  · simp [runTaskFuel, h]
  · simp [runTaskWithoutDependencies, h]

theorem unregistered_name_behaviour_witness :
    lookupTask [] "missing" = none ∧
    (runTaskFuel [] 1 "missing" []
       = some (Except.error (JSError.error "Task missing does not exist"), []) ∧
     runTaskWithoutDependencies [] "missing" []
       = (DirectOutcome.thrown thisRejectTypeError, [])) :=
  ⟨rfl, unregistered_name_behaviour [] "missing" [] 0 rfl⟩

/-- **C8** (confirmed).  In the diamond `A → [B, C]`, `B → D`, `C → D`,
resolving `A` executes `D`'s runnable exactly twice — once under `B`'s
branch with `B`'s override merged, once under `C`'s branch with `C`'s
override merged (the two logged option objects differ) — with no
memoization or de-duplication across the call tree. -/
theorem diamond_dependency_runs_twice :
    runTaskFuel diamondReg 3 "A" []
      = some (Except.ok (Value.num 0),
          [("D", [("b", Value.num 1)], []), ("B", [], [Value.num 4]),
           ("D", [("c", Value.num 2)], []), ("C", [], [Value.num 4]),
           ("A", [], [Value.num 1, Value.num 2])]) ∧
    countTask "D"
        [("D", [("b", Value.num 1)], []), ("B", [], [Value.num 4]),
         ("D", [("c", Value.num 2)], []), ("C", [], [Value.num 4]),
         ("A", [], [Value.num 1, Value.num 2])] = 2 ∧
    getKey [("b", Value.num 1)] "b" = some (Value.num 1) ∧
    getKey [("c", Value.num 2)] "b" = none := ⟨rfl, rfl, rfl, rfl⟩

/-- **C10** (confirmed).  For every registered task (whatever dependencies
it declares) and any options `o`, `runTaskWithoutDependencies` invokes
exactly the task's own runnable, exactly once, with options `o` and an
empty results array (the trace is that single entry — no declared
dependency is ever consulted or executed), and the outcome is determined
by that runnable alone. -/
theorem runDirect_ignores_dependencies (reg : Registry) (n : String) (task : TaskDef)
    (o : Obj) (h : lookupTask reg n = some task) :
    runTaskWithoutDependencies reg n o
      = (match task.run o [] with
         | Except.ok v => DirectOutcome.promise (Except.ok v)
         | Except.error _ => DirectOutcome.promise (Except.error thisRejectTypeError),
         [(n, o, [])]) := by
  rcases hr : task.run o [] with e | v <;>
    simp [runTaskWithoutDependencies, h, hr]

theorem runDirect_ignores_dependencies_witness :
    lookupTask arrSpliceReg "A"
      = some (TaskDef.mk (fun _ rs => Except.ok (Value.num (Int.ofNat rs.length))) [Dep.name "B"]) ∧
    runTaskWithoutDependencies arrSpliceReg "A" [("x", Value.num 9)]
      = (DirectOutcome.promise (Except.ok (Value.num 0)), [("A", [("x", Value.num 9)], [])]) :=
  ⟨rfl, runDirect_ignores_dependencies arrSpliceReg "A"
    (TaskDef.mk (fun _ rs => Except.ok (Value.num (Int.ofNat rs.length))) [Dep.name "B"])
    [("x", Value.num 9)] rfl⟩

/-- **C1** (corrected).  When every declared dependency of a registered
task resolves successfully, the task's runnable is invoked with the
accumulated results array, and that array is the declaration-order
`concat` fold of the individual dependency outcomes (each resolved under
its own merged options).  It has exactly one element per declared
dependency, the k-th being the k-th dependency's value, PROVIDED no
dependency resolved to an array value; an array-valued outcome is spliced
element-wise by `results.concat(result)`, so the claimed one-element-per-
dependency correspondence fails for sequence-valued results (see the
counterexample). -/
theorem results_match_dependencies (reg : Registry) (fuel : Nat) (n : String)
    (task : TaskDef) (o : Obj) (rs : List Value) (dtr : Trace)
    (hlook : lookupTask reg n = some task)
    (hdeps : runDepsWith (runTaskFuel reg fuel) reg o task.dependencies []
       = some (Except.ok rs, dtr)) :
    runTaskFuel reg (fuel + 1) n o
      = some (task.run o rs, dtr ++ [(n, o, rs)]) ∧
    ∃ vs : List Value,
      vs.length = task.dependencies.length ∧
      rs = vs.foldl concatJS [] ∧
      (∀ i, i < task.dependencies.length → ∃ d v tri,
        task.dependencies.get? i = some d ∧ vs.get? i = some v ∧
        runTaskFuel reg fuel (depTask d) (jsMerge o (depOpts d))
          = some (Except.ok v, tri)) ∧
      ((∀ v ∈ vs, isArr v = false) → rs = vs) := by
  constructor
  · simp [runTaskFuel, hlook, hdeps]
  · obtain ⟨vs, hlen, hrs, hidx⟩ :=
      runDepsWith_ok_results (runTaskFuel reg fuel) reg o task.dependencies [] rs dtr hdeps
    refine ⟨vs, hlen, hrs, hidx, ?_⟩
    intro hna
    rw [hrs, foldl_concatJS_nonarr vs [] hna]
    simp

theorem results_match_dependencies_witness :
    lookupTask arrSpliceReg "A"
      = some (TaskDef.mk (fun _ rs => Except.ok (Value.num (Int.ofNat rs.length)))
          [Dep.name "B"]) ∧
    runDepsWith (runTaskFuel arrSpliceReg 1) arrSpliceReg [] [Dep.name "B"] []
      = some (Except.ok [Value.num 1, Value.num 2], [("B", [], [])]) ∧
    (runTaskFuel arrSpliceReg 2 "A" []
       = some (Except.ok (Value.num 2),
           [("B", [], []), ("A", [], [Value.num 1, Value.num 2])]) ∧
     ∃ vs : List Value,
       vs.length = 1 ∧
       [Value.num 1, Value.num 2] = vs.foldl concatJS [] ∧
       (∀ i, i < 1 → ∃ d v tri,
         [Dep.name "B"].get? i = some d ∧ vs.get? i = some v ∧
         runTaskFuel arrSpliceReg 1 (depTask d) (jsMerge [] (depOpts d))
           = some (Except.ok v, tri)) ∧
       ((∀ v ∈ vs, isArr v = false) → [Value.num 1, Value.num 2] = vs)) :=
  ⟨rfl, rfl,
    results_match_dependencies arrSpliceReg 1 "A"
      (TaskDef.mk (fun _ rs => Except.ok (Value.num (Int.ofNat rs.length))) [Dep.name "B"])
      [] [Value.num 1, Value.num 2] [("B", [], [])] rfl rfl⟩

/-- **C1 counterexample**.  `A` has exactly one declared dependency `B`,
but because `B` resolves to the array `[1, 2]`, `A`'s runnable receives a
results array of length 2 (it returns that observed length), refuting
"exactly one element per entry of the dependencies list ... for every
possible dependency result value, including sequence-valued results". -/
theorem results_splice_counterexample :
    runTaskFuel arrSpliceReg 2 "A" []
      = some (Except.ok (Value.num 2),
          [("B", [], []), ("A", [], [Value.num 1, Value.num 2])]) ∧
    [Value.num 1, Value.num 2].length ≠ [Dep.name "B"].length :=
  ⟨rfl, by decide⟩

/-- **C3** (corrected).  With `A` depending on `[B, C]` in that order and
`B`, `C` leaf tasks: the trace shows `B`'s resolution fully completes
before `C`'s begins, followed by `A`'s own invocation, and `A`'s runnable
receives `[resultOfB, resultOfC]` in that order — PROVIDED neither result
is an array value (array results are spliced by `concat`; see the
counterexample).  The sequencing itself is unconditional: it is
structural in the dependency fold, which only processes dependency k+1 on
the fully settled result of dependency k. -/
theorem sequential_declaration_order (fuel : Nat) (o : Obj) (vB vC : Value)
    (fA : Obj → List Value → Except JSError Value)
    (hB : isArr vB = false) (hC : isArr vC = false) :
    runTaskFuel
      [("A", TaskDef.mk fA [Dep.name "B", Dep.name "C"]),
       ("B", TaskDef.mk (fun _ _ => Except.ok vB) []),
       ("C", TaskDef.mk (fun _ _ => Except.ok vC) [])]
      (fuel + 2) "A" o
    = some (fA o [vB, vC],
        [("B", jsMerge o [], []), ("C", jsMerge o [], []), ("A", o, [vB, vC])]) := by
  cases vB <;> cases vC <;>
    first
      | rfl
      | exact Bool.noConfusion hB
      | exact Bool.noConfusion hC

theorem sequential_declaration_order_witness :
    isArr (Value.num 7) = false ∧ isArr (Value.str "c") = false ∧
    runTaskFuel
      [("A", TaskDef.mk noopRun [Dep.name "B", Dep.name "C"]),
       ("B", TaskDef.mk (fun _ _ => Except.ok (Value.num 7)) []),
       ("C", TaskDef.mk (fun _ _ => Except.ok (Value.str "c")) [])]
      2 "A" []
    = some (noopRun [] [Value.num 7, Value.str "c"],
        [("B", jsMerge [] [], []), ("C", jsMerge [] [], []),
         ("A", [], [Value.num 7, Value.str "c"])]) :=
  ⟨rfl, rfl, sequential_declaration_order 0 [] (Value.num 7) (Value.str "c") noopRun rfl rfl⟩

/-- **C3 counterexample**.  `A` depends on `[B, C]`; `B` resolves to the
array `["x", "y"]` and `C` to `"z"`.  `A`'s runnable receives
`["x", "y", "z"]` — not `[resultOfB, resultOfC]` — so the claim's
"receives results = [resultOfB, resultOfC]" fails as universally stated
(the execution order `B` before `C` before `A` still holds). -/
theorem sequential_order_splice_counterexample :
    runTaskFuel seqSpliceReg 2 "A" []
      = some (Except.ok (Value.arr [Value.str "x", Value.str "y", Value.str "z"]),
          [("B", [], []), ("C", [], []),
           ("A", [], [Value.str "x", Value.str "y", Value.str "z"])]) ∧
    [Value.str "x", Value.str "y", Value.str "z"]
      ≠ [Value.arr [Value.str "x", Value.str "y"], Value.str "z"] :=
  ⟨rfl, by simp⟩

/-- **C4** (confirmed).  A dependency carrying an options override is
resolved under the freshly merged mapping `jsMerge o ov` (for every key,
the override's value wins, otherwise the inherited value is used); a
sibling declared without an override is resolved under `jsMerge o []`,
which reads identically to `o` on every key; and the parent's own
runnable still receives the unmodified `o` — the override never leaks to
siblings or back to the ancestor. -/
theorem option_override_scoped (fuel : Nat) (o ov : Obj) (vB vC : Value)
    (fA : Obj → List Value → Except JSError Value) :
    runTaskFuel
      [("A", TaskDef.mk fA [Dep.spec "B" ov, Dep.name "C"]),
       ("B", TaskDef.mk (fun _ _ => Except.ok vB) []),
       ("C", TaskDef.mk (fun _ _ => Except.ok vC) [])]
      (fuel + 2) "A" o
    = some (fA o (concatJS (concatJS [] vB) vC),
        [("B", jsMerge o ov, []), ("C", jsMerge o [], []),
         ("A", o, concatJS (concatJS [] vB) vC)]) ∧
    (∀ k, getKey (jsMerge o ov) k = optOr (getKey ov k) (getKey o k)) ∧
    (∀ k, getKey (jsMerge o []) k = getKey o k) := by
  refine ⟨rfl, ?_, ?_⟩
  · intro k
    exact getKey_jsMerge o ov k
  · intro k
    exact getKey_jsMerge_empty o k

/-- **C6** (corrected).  If a task's dependency list names an unregistered
task (after any prefix of successfully resolving dependencies), the whole
resolution fails immediately with the error
`Dependent task <missing> not found`: no later sibling is started and the
parent's runnable is never invoked (the trace is exactly the prefix's
trace).  The error message carries only the missing dependency's name,
not the dependent (parent) task's name as claimed — see the
counterexample. -/
theorem missing_dependency_fail_fast (reg : Registry) (fuel : Nat) (pn dn : String)
    (fP : Obj → List Value → Except JSError Value)
    (ds₁ ds₂ : List Dep) (o : Obj) (rs₁ : List Value) (tr₁ : Trace)
    (hlook : lookupTask reg pn = some (TaskDef.mk fP (ds₁ ++ Dep.name dn :: ds₂)))
    (hmiss : canRunTask reg dn = false)
    (hpre : runDepsWith (runTaskFuel reg fuel) reg o ds₁ []
       = some (Except.ok rs₁, tr₁)) :
    runTaskFuel reg (fuel + 1) pn o
      = some (Except.error (JSError.error ("Dependent task " ++ dn ++ " not found")), tr₁) := by
  have happ := runDepsWith_append (runTaskFuel reg fuel) reg o ds₁ (Dep.name dn :: ds₂)
    [] rs₁ tr₁ hpre
  have hstep : runDepsWith (runTaskFuel reg fuel) reg o (Dep.name dn :: ds₂) rs₁
      = some (Except.error (JSError.error ("Dependent task " ++ dn ++ " not found")), []) := by
    simp [runDepsWith, hmiss, depTask]
  rw [hstep] at happ
  simp at happ
  simp [runTaskFuel, hlook, happ]

theorem missing_dependency_fail_fast_witness :
    lookupTask prefixMissingReg "P"
      = some (TaskDef.mk noopRun ([Dep.name "E"] ++ Dep.name "D" :: [])) ∧
    canRunTask prefixMissingReg "D" = false ∧
    runDepsWith (runTaskFuel prefixMissingReg 1) prefixMissingReg [] [Dep.name "E"] []
      = some (Except.ok [Value.num 5], [("E", jsMerge [] [], [])]) ∧
    runTaskFuel prefixMissingReg 2 "P" []
      = some (Except.error (JSError.error "Dependent task D not found"),
          [("E", jsMerge [] [], [])]) :=
  ⟨rfl, rfl, rfl,
    missing_dependency_fail_fast prefixMissingReg 1 "P" "D" noopRun
      [Dep.name "E"] [] [] [Value.num 5] [("E", jsMerge [] [], [])] rfl rfl rfl⟩

/-- **C6 counterexample**.  `parent` depends on the unregistered `ghost`.
The failure is the error whose message is `Dependent task ghost not
found`: it contains the missing dependency's name but does NOT contain
the dependent task's name `parent`, refuting "carries both the dependent
task's name P and the missing dependency's name D". -/
theorem dependencyNotFound_counterexample :
    runTaskFuel missingDepReg 2 "parent" []
      = some (Except.error (JSError.error "Dependent task ghost not found"), []) ∧
    strContainsSub "Dependent task ghost not found" "ghost" = true ∧
    strContainsSub "Dependent task ghost not found" "parent" = false :=
  ⟨rfl, rfl, rfl⟩

/-- **C9 counterexample**.  Calling `addTask` with a `null` first argument
and no explicit name does fail synchronously — but with a `TypeError`
raised by evaluating `task.name` on `null` during argument normalization
(which runs before the `typeof task === 'function'` check), not with
either of the registration-time configuration errors the claim
prescribes for every non-callable input "including null or absent first
arguments". -/
theorem addTask_nullish_counterexample :
    addTask [] (JSArg.nonFunc Value.null) NameArg.undef []
      = Except.error (JSError.typeError "Cannot read properties of null (reading name)") ∧
    JSError.typeError "Cannot read properties of null (reading name)" ≠ cfgErrNoName ∧
    JSError.typeError "Cannot read properties of null (reading name)" ≠ cfgErrNotFunc :=
  ⟨rfl, by decide, by decide⟩

/-- **C9** (corrected).  Registration outcome characterization: a callable
first argument with a supplied non-empty name, or with a derivable
non-empty intrinsic name (name argument absent or an array moved into the
dependency slot), writes the entry into the registry; a named-less
callable fails with the "must be a named function" configuration error; a
non-callable first argument fails with the "must be a function"
configuration error — EXCEPT that a `null`/`undefined` first argument
without a supplied non-empty name fails earlier, with a `TypeError` from
reading `.name` of a nullish value, instead of a configuration error.
All failures are synchronous. -/
theorem addTask_registration_characterization (reg : Registry) (deps : List Dep) :
    (∀ f : JSFunc, ∀ s : String, s.isEmpty = false →
       addTask reg (JSArg.func f) (NameArg.str s) deps
         = Except.ok (setTask reg s (TaskDef.mk f.run deps))) ∧
    (∀ f : JSFunc, f.name.isEmpty = false →
       addTask reg (JSArg.func f) NameArg.undef deps
         = Except.ok (setTask reg f.name (TaskDef.mk f.run deps)) ∧
       ∀ ds : List Dep, addTask reg (JSArg.func f) (NameArg.arr ds) deps
         = Except.ok (setTask reg f.name (TaskDef.mk f.run ds))) ∧
    (∀ f : JSFunc, f.name = "" →
       addTask reg (JSArg.func f) NameArg.undef deps = Except.error cfgErrNoName) ∧
    (∀ v : Value, v ≠ Value.null → v ≠ Value.undef →
       addTask reg (JSArg.nonFunc v) NameArg.undef deps = Except.error cfgErrNotFunc) ∧
    (∀ v : Value, ∀ s : String, s.isEmpty = false →
       addTask reg (JSArg.nonFunc v) (NameArg.str s) deps = Except.error cfgErrNotFunc) ∧
    (∀ v : Value, v = Value.null ∨ v = Value.undef →
       ∃ m, addTask reg (JSArg.nonFunc v) NameArg.undef deps
         = Except.error (JSError.typeError m)) := by
  refine ⟨?_, ?_, ?_, ?_, ?_, ?_⟩
  · intro f s h
    simp [addTask, truthyName, argName, h]
  · intro f h
    constructor
    · simp [addTask, truthyName, argName, h]
    · intro ds
      simp [addTask, truthyName, argName, Except.map, h]
  · intro f h
    have hb : ("" : String).isEmpty = true := rfl
    simp [addTask, truthyName, argName, h, hb]
  · intro v h1 h2
    cases v
    case null => exact absurd rfl h1
    case undef => exact absurd rfl h2
    all_goals rfl
  · intro v s h
    simp [addTask, truthyName, argName, h]
  · intro v h
    rcases h with h | h <;> subst h
    · exact ⟨"Cannot read properties of null (reading name)", rfl⟩
    · exact ⟨"Cannot read properties of undefined (reading name)", rfl⟩

theorem addTask_registration_characterization_witness :
    ("build".isEmpty = false ∧
     addTask [] (JSArg.func (JSFunc.mk "" noopRun)) (NameArg.str "build") []
       = Except.ok (setTask [] "build" (TaskDef.mk noopRun []))) ∧
    (Value.num 3 ≠ Value.null ∧ Value.num 3 ≠ Value.undef ∧
     addTask [] (JSArg.nonFunc (Value.num 3)) NameArg.undef []
       = Except.error cfgErrNotFunc) :=
  ⟨⟨rfl,
    (addTask_registration_characterization [] []).1 (JSFunc.mk "" noopRun) "build" rfl⟩,
   ⟨fun h => Value.noConfusion h, fun h => Value.noConfusion h,
    (addTask_registration_characterization [] []).2.2.2.1 (Value.num 3)
      (fun h => Value.noConfusion h) (fun h => Value.noConfusion h)⟩⟩
